import Mathlib

/-!
Verification of the robinson-style toy browser engine (HTML parser, style
engine, block layout) against its natural-language specification.

The Rust sources under `src/` are shallowly embedded below.  `f32` is
modelled as `ℚ` (the layout arithmetic in scope is exact field arithmetic).
`HashMap` is modelled as an association list observed only through lookup,
with insert replacing an existing binding in place or appending a new one.
Rust's stable `sort_by` is modelled by `List.mergeSort`, which is stable.
The module `css.rs` is not part of the sources; its data shapes and the
`specificity`/`to_px` functions are modelled from the specification (§3,
§4.3.2), as marked on each such definition.
-/

namespace Robinson

/-! ### css.rs (modelled from the spec) -/

/-- Modelled from the spec: `css.rs` is missing from the sources; §3 says
`Unit` enumerates `{Px}`. -/
inductive Unit where
  | Px
deriving DecidableEq

/-- Modelled from the spec: §3 "A Value is one of: Keyword(string),
Length(number, Unit), ColorValue(r,g,b,a)". -/
inductive Value where
  | Keyword (s : String)
  | Length (q : ℚ) (u : Unit)
  | ColorValue (r g b a : ℕ)
deriving DecidableEq

/-- Modelled from the spec: §4.3.2 step 3 reads the pixel value of a
`Value`, "treating auto as 0 for this purpose via to_px()": a `Length`
yields its number, everything else yields 0. -/
def Value.to_px : Value → ℚ
  | .Length q _ => q
  | _ => 0

/-- Modelled from the spec: §3 "A Declaration is (property-name, value)". -/
structure Declaration where
  name : String
  value : Value
deriving DecidableEq

/-- Modelled from the spec: §3 "A Selector in this core is a Simple
selector: optional tag name, optional id, and an ordered list of class
names". Field names are those used by the tests in `style.rs`. -/
structure SimpleSelector where
  tag_name : Option String
  id : Option String
  «class» : List String
deriving DecidableEq

/-- Selector wrapper; `style.rs` imports the single variant `Simple`. -/
inductive Selector where
  | Simple (s : SimpleSelector)
deriving DecidableEq

/-- Modelled from the spec: §3 "Specificity of a simple selector is the
triple (id-present?, class-count, tag-present?) lexicographically
ordered". -/
abbrev Specificity : Type := ℕ × ℕ × ℕ

/-- Modelled from the spec: the specificity triple of a simple selector. -/
def Selector.specificity : Selector → Specificity
  | .Simple s => ((if s.id.isSome then 1 else 0), s.class.length,
      (if s.tag_name.isSome then 1 else 0))

/-- Lexicographic order on specificity triples; models Rust's derived
`Ord` on `(usize, usize, usize)` used by `rules.sort_by` in `style.rs`. -/
def spec_le (a b : Specificity) : Bool :=
  decide (a.1 < b.1 ∨ (a.1 = b.1 ∧
    (a.2.1 < b.2.1 ∨ (a.2.1 = b.2.1 ∧ a.2.2 ≤ b.2.2))))

/-- Strict version of `spec_le`. -/
def spec_lt (a b : Specificity) : Bool := spec_le a b && !(spec_le b a)

/-- Modelled from the spec: §3 "A Rule has an ordered list of Selectors and
an ordered list of Declarations". -/
structure Rule where
  selectors : List Selector
  declarations : List Declaration
deriving DecidableEq

/-- Modelled from the spec: §3 "An ordered sequence of Rules". -/
structure Stylesheet where
  rules : List Rule
deriving DecidableEq

/-! ### dom.rs -/

/-- `AttrMap` from `dom.rs`: a `HashMap<String, String>` observed only
through `get`, modelled as an association list. -/
abbrev AttrMap : Type := List (String × String)

/-- `HashMap::get`. -/
def attr_get (m : AttrMap) (k : String) : Option String :=
  (List.find? (fun p => p.1 = k) m).map (·.2)

/-- `HashMap::insert`: replace the value of an existing binding, otherwise
add a new binding. -/
def attr_insert (m : AttrMap) (k : String) (v : String) : AttrMap :=
  if m.any (fun p => p.1 = k) then
    m.map (fun p => if p.1 = k then (k, v) else p)
  else m ++ [(k, v)]

/-- `ElementData` from `dom.rs`. -/
structure ElementData where
  tag_name : String
  attributes : AttrMap
deriving DecidableEq

/-- `NodeType` from `dom.rs`. -/
inductive NodeType where
  | Text (s : String)
  | Element (e : ElementData)
deriving DecidableEq

/-- `Node` from `dom.rs`: common `children` plus a `node_type`. -/
inductive Node where
  | mk (children : List Node) (node_type : NodeType)

/-- Child list of a node. -/
def Node.children : Node → List Node
  | .mk cs _ => cs

/-- Node type of a node. -/
def Node.node_type : Node → NodeType
  | .mk _ nt => nt

/-- `dom::text`. -/
def text (data : String) : Node := .mk [] (.Text data)

/-- `dom::elem`. -/
def elem (tag_name : String) (attrs : AttrMap) (children : List Node) : Node :=
  .mk children (.Element ⟨tag_name, attrs⟩)

/-- `ElementData::id`: the value of the attribute named `id`. -/
def ElementData.id (e : ElementData) : Option String :=
  attr_get e.attributes "id"

/-- Character-level splitting used by `classes`; models Rust's
`str::split(c)`, which yields the (possibly empty) substrings between
occurrences of `c`, and yields `[""]` on the empty string. -/
def split_char (sep : Char) : List Char → List (List Char)
  | [] => [[]]
  | c :: rest =>
    match split_char sep rest with
    | [] => [[]]
    | g :: gs => if c = sep then [] :: g :: gs else (c :: g) :: gs

/-- `ElementData::classes`: split the `class` attribute on single spaces;
an absent attribute gives the empty set.  The `HashSet` result is observed
only through `contains`, so it is modelled as the list of class names. -/
def ElementData.classes (e : ElementData) : List String :=
  match attr_get e.attributes "class" with
  | some classlist => (split_char ' ' classlist.data).map String.mk
  | none => []

/-! ### html.rs

The parser holds a byte cursor into an immutable string; it is modelled by
passing around the remaining input as a `List Char`.  Every `panic!`,
failed `expect`, `assert!` or out-of-bounds `next_char` becomes `none`.
The mutually recursive `parse_nodes`/`parse_node`/`parse_element` loop is
given a fuel parameter for termination; the top-level `parse` supplies
ample fuel, and all theorems about the parser are stated about these
definitions as written. -/

/-- The double quote character. -/
def dquote : Char := Char.ofNat 34

/-- The single quote character. -/
def squote : Char := Char.ofNat 39

/-- Characters accepted by `Parser::parse_name`: ASCII alphanumerics. -/
def is_name_char (c : Char) : Bool :=
  (('a' ≤ c ∧ c ≤ 'z') ∨ ('A' ≤ c ∧ c ≤ 'Z') ∨ ('0' ≤ c ∧ c ≤ '9'))

/-- `Parser::consume_while`: the consumed run and the remaining input. -/
def consume_while (t : Char → Bool) (s : List Char) : List Char × List Char :=
  (s.takeWhile t, s.dropWhile t)

/-- `Parser::consume_whitespace`: drop leading whitespace. -/
def consume_whitespace (s : List Char) : List Char :=
  s.dropWhile Char.isWhitespace

/-- `Parser::parse_name`: a run of ASCII alphanumerics. -/
def parse_name (s : List Char) : List Char × List Char :=
  consume_while is_name_char s

/-- `Parser::expect`: consume the exact string `p`, otherwise panic. -/
def expect (p : List Char) (s : List Char) : Option (List Char) :=
  if p.isPrefixOf s then some (s.drop p.length) else none

/-- `Parser::parse_text`: consume verbatim up to the next `<`. -/
def parse_text (s : List Char) : Node × List Char :=
  let r := consume_while (fun c => c ≠ '<') s
  (text (String.mk r.1), r.2)

/-- `Parser::parse_attr_value`: a quoted value whose opening quote must be
`"` or `'` and must match its closing quote. -/
def parse_attr_value (s : List Char) : Option (String × List Char) :=
  match s with
  | [] => none
  | open_quote :: s1 =>
    if open_quote = dquote ∨ open_quote = squote then
      let r := consume_while (fun c => c ≠ open_quote) s1
      match r.2 with
      | [] => none
      | close_quote :: s2 =>
        if close_quote = open_quote then some (String.mk r.1, s2) else none
    else none

/-- `Parser::parse_attr`: `name`, `=`, then a quoted value. -/
def parse_attr (s : List Char) : Option ((String × String) × List Char) :=
  let n := parse_name s
  match expect ['='] n.2 with
  | none => none
  | some s1 =>
    match parse_attr_value s1 with
    | none => none
    | some (v, s2) => some ((String.mk n.1, v), s2)

/-- `Parser::parse_attributes`: whitespace-separated `name="value"` pairs
up to the closing `>`, inserted into the attribute map in order. -/
def parse_attributes : ℕ → List Char → AttrMap → Option (AttrMap × List Char)
  | 0, _, _ => none
  | fuel + 1, s, acc =>
    let s1 := consume_whitespace s
    match s1 with
    | [] => none
    | c :: _ =>
      if c = '>' then some (acc, s1)
      else
        match parse_attr s1 with
        | none => none
        | some ((n, v), s2) => parse_attributes fuel s2 (attr_insert acc n v)

mutual

/-- `Parser::parse_nodes`: repeatedly skip whitespace, stop at EOF or at a
closing tag, otherwise parse one node. -/
def parse_nodes : ℕ → List Char → Option (List Node × List Char)
  | 0, _ => none
  | fuel + 1, s =>
    let s1 := consume_whitespace s
    if s1 = [] ∨ ['<', '/'].isPrefixOf s1 then some ([], s1)
    else
      match parse_node fuel s1 with
      | none => none
      | some (n, s2) =>
        match parse_nodes fuel s2 with
        | none => none
        | some (ns, s3) => some (n :: ns, s3)

/-- `Parser::parse_node`: a leading `<` selects an element, anything else
text. -/
def parse_node : ℕ → List Char → Option (Node × List Char)
  | 0, _ => none
  | fuel + 1, s =>
    if ['<'].isPrefixOf s then parse_element fuel s
    else some (parse_text s)

/-- `Parser::parse_element`: opening tag with attributes, children, then a
closing tag that must repeat the opening tag name. -/
def parse_element : ℕ → List Char → Option (Node × List Char)
  | 0, _ => none
  | fuel + 1, s =>
    match expect ['<'] s with
    | none => none
    | some s1 =>
      let tn := parse_name s1
      match parse_attributes (fuel + 1) tn.2 [] with
      | none => none
      | some (attrs, s2) =>
        match expect ['>'] s2 with
        | none => none
        | some s3 =>
          match parse_nodes fuel s3 with
          | none => none
          | some (children, s4) =>
            match expect ['<', '/'] s4 with
            | none => none
            | some s5 =>
              match expect tn.1 s5 with
              | none => none
              | some s6 =>
                match expect ['>'] s6 with
                | none => none
                | some s7 => some (elem (String.mk tn.1) attrs children, s7)

end

/-- Fuel supplied by the top-level `parse`; generous, since every recursive
call of the parser sits behind at least one consumed input character. -/
def parse_fuel (source : List Char) : ℕ := 3 * source.length + 3

/-- `html::parse`: run `parse_nodes` from the start; a single root node is
returned as is, anything else is wrapped in a synthetic `<html>` element
with empty attributes. -/
def parse (source : List Char) : Option Node :=
  match parse_nodes (parse_fuel source) source with
  | none => none
  | some (nodes, _) =>
    match nodes with
    | [n] => some n
    | _ => some (elem "html" [] nodes)

/-! ### style.rs -/

/-- `PropertyMap` from `style.rs`: a `HashMap<String, Value>` observed only
through `get`, modelled as an association list. -/
abbrev PropertyMap : Type := List (String × Value)

/-- `HashMap::get` on a property map. -/
def pm_find (m : PropertyMap) (k : String) : Option Value :=
  (List.find? (fun p => p.1 = k) m).map (·.2)

/-- `HashMap::insert` on a property map: replace the value of an existing
binding, otherwise add a new binding. -/
def pm_insert (m : PropertyMap) (k : String) (v : Value) : PropertyMap :=
  if m.any (fun p => p.1 = k) then
    m.map (fun p => if p.1 = k then (k, v) else p)
  else m ++ [(k, v)]

/-- `StyledNode` from `style.rs`: a borrowed DOM node, its specified
values, and styled children. -/
inductive StyledNode where
  | mk (node : Node) (specified_values : PropertyMap) (children : List StyledNode)

/-- The DOM node of a styled node. -/
def StyledNode.node : StyledNode → Node
  | .mk n _ _ => n

/-- The specified values of a styled node. -/
def StyledNode.specified_values : StyledNode → PropertyMap
  | .mk _ sv _ => sv

/-- The children of a styled node. -/
def StyledNode.children : StyledNode → List StyledNode
  | .mk _ _ cs => cs

/-- `Display` from `style.rs`. -/
inductive Display where
  | Inline
  | Block
  | None
deriving DecidableEq

/-- `StyledNode::value`: the specified value of a property, if any. -/
def StyledNode.value (s : StyledNode) (name : String) : Option Value :=
  pm_find s.specified_values name

/-- `StyledNode::lookup`: `name`, else `fallback_name`, else `default`. -/
def StyledNode.lookup (s : StyledNode) (name fallback_name : String)
    (default : Value) : Value :=
  match s.value name with
  | some v => v
  | none =>
    match s.value fallback_name with
    | some v => v
    | none => default

/-- `StyledNode::display`: `block` and `none` keywords are recognised,
everything else (other keywords, non-keywords, absent) is inline. -/
def StyledNode.display (s : StyledNode) : Display :=
  match s.value "display" with
  | some (.Keyword kw) =>
    if kw = "block" then .Block
    else if kw = "none" then .None
    else .Inline
  | _ => .Inline

/-- `style::matches_simple_selector`, translated exactly as written in the
source — including the class check, which returns `false` as soon as ANY
selector class IS contained in the element's class set (the source lacks
the negation that the spec's intended semantics would require). -/
def matches_simple_selector (e : ElementData) (s : SimpleSelector) : Bool :=
  if s.tag_name.any (fun name => e.tag_name ≠ name) then false
  else if s.id.any (fun i => e.id ≠ some i) then false
  else if s.class.any (fun c => e.classes.contains c) then false
  else true

/-- `style::matches`: dispatch on the selector kind. -/
def «matches» (e : ElementData) (sel : Selector) : Bool :=
  match sel with
  | .Simple s => matches_simple_selector e s

/-- `MatchedRule` from `style.rs`. -/
abbrev MatchedRule : Type := Specificity × Rule

/-- `style::match_rule`: the first selector (in source order) that matches
the element yields `(its specificity, the rule)`. -/
def match_rule (e : ElementData) (r : Rule) : Option MatchedRule :=
  (r.selectors.find? (fun sel => «matches» e sel)).map
    (fun sel => (sel.specificity, r))

/-- `style::matching_rules`: all matched rules, in stylesheet order. -/
def matching_rules (e : ElementData) (sheet : Stylesheet) : List MatchedRule :=
  sheet.rules.filterMap (match_rule e)

/-- Comparator handed to `rules.sort_by` in `specified_values`: compare
matched rules by their specificity triples. -/
def rule_le (a b : MatchedRule) : Bool := spec_le a.1 b.1

/-- Fold one rule's declarations into the property map, in source order,
overwriting. -/
def apply_rule (values : PropertyMap) (mr : MatchedRule) : PropertyMap :=
  mr.2.declarations.foldl (fun m d => pm_insert m d.name d.value) values

/-- `style::specified_values`: stable-sort the matched rules by specificity
ascending (Rust's `sort_by` is stable; `List.mergeSort` models it), then
apply every declaration in order. -/
def specified_values (e : ElementData) (sheet : Stylesheet) : PropertyMap :=
  let rules := matching_rules e sheet
  (rules.mergeSort rule_le).foldl apply_rule []

/-- `style::style_tree`: mirror the DOM tree; text nodes get an empty map,
element nodes get `specified_values`. -/
def style_tree (root : Node) (sheet : Stylesheet) : StyledNode :=
  match root with
  | .mk cs nt =>
    .mk (.mk cs nt)
      (match nt with
       | .Text _ => []
       | .Element e => specified_values e sheet)
      (cs.attach.map (fun c => style_tree c.1 sheet))
termination_by sizeOf root
decreasing_by
  have := List.sizeOf_lt_of_mem c.2
  simp only [Node.mk.sizeOf_spec]
  omega

/-! ### layout.rs -/

/-- `Rect` from `layout.rs` (`f32` fields modelled as `ℚ`). -/
structure Rect where
  x : ℚ
  y : ℚ
  width : ℚ
  height : ℚ
deriving DecidableEq

/-- `EdgeSizes` from `layout.rs`. -/
structure EdgeSizes where
  left : ℚ
  right : ℚ
  top : ℚ
  bottom : ℚ
deriving DecidableEq

/-- `Dimensions` from `layout.rs`. -/
structure Dimensions where
  content : Rect
  padding : EdgeSizes
  border : EdgeSizes
  margin : EdgeSizes
deriving DecidableEq

/-- `Default` for `Rect`: all fields 0. -/
def Rect.default : Rect := ⟨0, 0, 0, 0⟩

/-- `Default` for `EdgeSizes`: all fields 0. -/
def EdgeSizes.default : EdgeSizes := ⟨0, 0, 0, 0⟩

/-- `Default` for `Dimensions`: all fields 0. -/
def Dimensions.default : Dimensions :=
  ⟨Rect.default, EdgeSizes.default, EdgeSizes.default, EdgeSizes.default⟩

/-- `Rect::expanded_by`. -/
def Rect.expanded_by (r : Rect) (edge : EdgeSizes) : Rect :=
  { x := r.x - edge.left
    y := r.y - edge.top
    width := r.width + edge.left + edge.right
    height := r.height + edge.top + edge.bottom }

/-- `Dimensions::padding_box`. -/
def Dimensions.padding_box (d : Dimensions) : Rect :=
  d.content.expanded_by d.padding

/-- `Dimensions::border_box`. -/
def Dimensions.border_box (d : Dimensions) : Rect :=
  d.padding_box.expanded_by d.border

/-- `Dimensions::margin_box`. -/
def Dimensions.margin_box (d : Dimensions) : Rect :=
  d.border_box.expanded_by d.margin

/-- `BoxType` from `layout.rs`. -/
inductive BoxType where
  | BlockNode (s : StyledNode)
  | InlineNode (s : StyledNode)
  | AnonymousBlock

/-- `LayoutBox` from `layout.rs`. -/
inductive LayoutBox where
  | mk (dimensions : Dimensions) (box_type : BoxType) (children : List LayoutBox)

/-- Dimensions of a layout box. -/
def LayoutBox.dimensions : LayoutBox → Dimensions
  | .mk d _ _ => d

/-- Box type of a layout box. -/
def LayoutBox.box_type : LayoutBox → BoxType
  | .mk _ bt _ => bt

/-- Children of a layout box. -/
def LayoutBox.children : LayoutBox → List LayoutBox
  | .mk _ _ cs => cs

/-- `LayoutBox::new`: zero dimensions, no children. -/
def LayoutBox.new (box_type : BoxType) : LayoutBox :=
  .mk Dimensions.default box_type []

/-- Whether a box is an `AnonymousBlock` (the pattern tested by
`get_inline_container` on the last child). -/
def BoxType.is_anonymous : BoxType → Bool
  | .AnonymousBlock => true
  | _ => false

/-- Append a freshly built box directly as a child (the `Display::Block`
arm of `build_layout_tree`'s child loop). -/
def push_child (root : LayoutBox) (b : LayoutBox) : LayoutBox :=
  match root with
  | .mk d bt cs => .mk d bt (cs ++ [b])

/-- The `Display::Inline` arm of `build_layout_tree`'s child loop:
`root.get_inline_container().children.push(b)`.  An `InlineNode` or
`AnonymousBlock` is its own inline container; a `BlockNode` reuses its
last child when that is already an `AnonymousBlock` and otherwise appends
a fresh one, and the built box is pushed into that container. -/
def push_inline (root : LayoutBox) (b : LayoutBox) : LayoutBox :=
  match root with
  | .mk d bt cs =>
    match bt with
    | .BlockNode s =>
      match cs.getLast? with
      | some last =>
        if last.box_type.is_anonymous then
          .mk d (.BlockNode s)
            (cs.dropLast ++ [.mk last.dimensions last.box_type (last.children ++ [b])])
        else .mk d (.BlockNode s) (cs ++ [push_child (LayoutBox.new .AnonymousBlock) b])
      | none => .mk d (.BlockNode s) (cs ++ [push_child (LayoutBox.new .AnonymousBlock) b])
    | _ => .mk d bt (cs ++ [b])

mutual

/-- `layout::build_layout_tree`: create the root box from the styled
node's display (a `display: none` root is the fatal
"Root node has display: none." panic, modelled as `none`), then place each
child by its display, skipping `display: none` children. -/
def build_layout_tree (styled_node : StyledNode) : Option LayoutBox :=
  match styled_node with
  | .mk n sv cs =>
    match (StyledNode.mk n sv cs).display with
    | .None => none
    | .Block => build_children cs (LayoutBox.new (.BlockNode (.mk n sv cs)))
    | .Inline => build_children cs (LayoutBox.new (.InlineNode (.mk n sv cs)))

/-- The child loop of `build_layout_tree`. -/
def build_children : List StyledNode → LayoutBox → Option LayoutBox
  | [], root => some root
  | child :: rest, root =>
    match child.display with
    | .Block =>
      match build_layout_tree child with
      | none => none
      | some b => build_children rest (push_child root b)
    | .Inline =>
      match build_layout_tree child with
      | none => none
      | some b => build_children rest (push_inline root b)
    | .None => build_children rest root

end

/-- `layout::sum`: fold with `+` from 0. -/
def sum (l : List ℚ) : ℚ := l.foldl (· + ·) 0

/-- `LayoutBox::calculate_block_width` (`style` is the box's style node,
`d` the box's dimensions before the call). -/
def calculate_block_width (style : StyledNode) (d : Dimensions)
    (containing_block : Dimensions) : Dimensions :=
  let auto := Value.Keyword "auto"
  let width := (style.value "width").getD auto
  let zero := Value.Length 0 .Px
  let margin_left := style.lookup "margin-left" "margin" zero
  let margin_right := style.lookup "margin-right" "margin" zero
  let border_left := style.lookup "border-left-width" "border-width" zero
  let border_right := style.lookup "border-right-width" "border-width" zero
  let padding_left := style.lookup "padding-left" "padding" zero
  let padding_right := style.lookup "padding-right" "padding" zero
  let total := sum ([margin_left, margin_right, border_left, border_right,
    padding_left, padding_right, width].map Value.to_px)
  let coerce := width ≠ auto ∧ total > containing_block.content.width
  let margin_left := if coerce ∧ margin_left = auto then zero else margin_left
  let margin_right := if coerce ∧ margin_right = auto then zero else margin_right
  let underflow := containing_block.content.width - total
  let resolved :=
    match decide (width = auto), decide (margin_left = auto),
      decide (margin_right = auto) with
    | false, false, false =>
      (width, margin_left, Value.Length (margin_right.to_px + underflow) .Px)
    | false, false, true =>
      (width, margin_left, Value.Length underflow .Px)
    | false, true, false =>
      (width, Value.Length underflow .Px, margin_right)
    | true, _, _ =>
      let margin_left := if margin_left = auto then Value.Length 0 .Px else margin_left
      let margin_right := if margin_right = auto then Value.Length 0 .Px else margin_right
      if underflow ≥ 0 then (Value.Length underflow .Px, margin_left, margin_right)
      else (Value.Length 0 .Px, margin_left,
        Value.Length (margin_right.to_px + underflow) .Px)
    | false, true, true =>
      (width, Value.Length (underflow / 2) .Px, Value.Length (underflow / 2) .Px)
  { d with
    content.width := resolved.1.to_px
    padding.left := padding_left.to_px
    padding.right := padding_right.to_px
    border.left := border_left.to_px
    border.right := border_right.to_px
    margin.left := resolved.2.1.to_px
    margin.right := resolved.2.2.to_px }

/-- `LayoutBox::calculate_block_position`. -/
def calculate_block_position (style : StyledNode) (d : Dimensions)
    (containing_block : Dimensions) : Dimensions :=
  let zero := Value.Length 0 .Px
  let margin_top := (style.lookup "margin-top" "margin" zero).to_px
  let margin_bottom := (style.lookup "margin-bottom" "margin" zero).to_px
  let border_top := (style.lookup "border-top-width" "border-width" zero).to_px
  let border_bottom := (style.lookup "border-bottom-width" "border-width" zero).to_px
  let padding_top := (style.lookup "padding-top" "padding" zero).to_px
  let padding_bottom := (style.lookup "padding-bottom" "padding" zero).to_px
  { d with
    margin.top := margin_top
    margin.bottom := margin_bottom
    border.top := border_top
    border.bottom := border_bottom
    padding.top := padding_top
    padding.bottom := padding_bottom
    content.x := containing_block.content.x + d.margin.left + d.border.left
      + d.padding.left
    content.y := containing_block.content.height + containing_block.content.y
      + margin_top + border_top + padding_top }

/-- `LayoutBox::calculate_block_height`: an explicit `Length(h, Px)` height
overwrites the accumulated content height. -/
def calculate_block_height (style : StyledNode) (d : Dimensions) : Dimensions :=
  match style.value "height" with
  | some (.Length h .Px) => { d with content.height := h }
  | _ => d

mutual

/-- `LayoutBox::layout`: only block nodes are laid out; inline and
anonymous boxes are left untouched. -/
def layout (b : LayoutBox) (containing_block : Dimensions) : LayoutBox :=
  match b with
  | .mk d bt cs =>
    match bt with
    | .BlockNode s =>
      let d1 := calculate_block_width s d containing_block
      let d2 := calculate_block_position s d1 containing_block
      let r := layout_block_children cs d2
      let d4 := calculate_block_height s r.1
      .mk d4 (.BlockNode s) r.2
    | _ => .mk d bt cs

/-- `LayoutBox::layout_block_children`: lay out each child against the
current dimensions, then grow the content height by the child's margin-box
height. -/
def layout_block_children : List LayoutBox → Dimensions → Dimensions × List LayoutBox
  | [], d => (d, [])
  | child :: rest, d =>
    let c := layout child d
    let d1 := { d with content.height := d.content.height + c.dimensions.margin_box.height }
    let r := layout_block_children rest d1
    (r.1, c :: r.2)

end

/-- The initial containing block of §6's driver contract: content width =
viewport width, everything else 0. -/
def viewport (w : ℚ) : Dimensions :=
  { Dimensions.default with content.width := w }

/-! ### Concrete scenarios referenced by claim statements -/

/-- A styled `<a>` block with an explicit `height: 10px` whose single child
is a block with `height: 30px` (exercises Phase 4's overwrite). -/
def fh_parent : StyledNode :=
  .mk (elem "a" [] [])
    [("display", .Keyword "block"), ("height", .Length 10 .Px)]
    [.mk (elem "b" [] [])
      [("display", .Keyword "block"), ("height", .Length 30 .Px)] []]

/-- The child styled node of `fh_parent`. -/
def fh_child : StyledNode :=
  .mk (elem "b" [] [])
    [("display", .Keyword "block"), ("height", .Length 30 .Px)] []

/-- The stylesheet of scenario S2:
`a { display: block; width: 120px; margin-left: 10px; margin-right: 10px; }`. -/
def s2_sheet : Stylesheet :=
  ⟨[⟨[.Simple ⟨some "a", none, []⟩],
    [⟨"display", .Keyword "block"⟩, ⟨"width", .Length 120 .Px⟩,
     ⟨"margin-left", .Length 10 .Px⟩, ⟨"margin-right", .Length 10 .Px⟩]⟩]⟩

/-- The single rule of scenario S2. -/
def s2_rule : Rule :=
  ⟨[.Simple ⟨some "a", none, []⟩],
    [⟨"display", .Keyword "block"⟩, ⟨"width", .Length 120 .Px⟩,
     ⟨"margin-left", .Length 10 .Px⟩, ⟨"margin-right", .Length 10 .Px⟩]⟩

/-- The styled root that scenario S2 produces for `<a></a>`. -/
def s2_styled : StyledNode :=
  .mk (elem "a" [] [])
    [("display", .Keyword "block"), ("width", .Length 120 .Px),
     ("margin-left", .Length 10 .Px), ("margin-right", .Length 10 .Px)] []

/-! ### Predicates used by the claim statements -/

/-- Every text node in the tree has non-empty data whose first character
is neither whitespace nor the opening angle bracket. -/
def text_ok : Node → Bool
  | .mk cs nt =>
    (match nt with
     | .Text d =>
       match d.data with
       | [] => false
       | c :: _ => !c.isWhitespace && c ≠ '<'
     | .Element _ => true)
    && cs.attach.all (fun c => text_ok c.1)
termination_by n => sizeOf n
decreasing_by
  have := List.sizeOf_lt_of_mem c.2
  simp only [Node.mk.sizeOf_spec]
  omega

/-- Whether a rule has a declaration for property `p`. -/
def Rule.declares (r : Rule) (p : String) : Bool :=
  r.declarations.any (fun d => d.name = p)

/-- The value of the last declaration for property `p` within a rule. -/
def Rule.last_decl (r : Rule) (p : String) : Option Value :=
  (r.declarations.reverse.find? (fun d => d.name = p)).map (·.value)

/-! ### C7: box-model geometry -/

/-- C7: for every `Dimensions` value the derived boxes compose as
`padding_box = content ⊕ padding`, `border_box = padding_box ⊕ border`,
`margin_box = border_box ⊕ margin`, where `r ⊕ e` shifts the origin left
and up by the edges and grows both extents by the opposite edge sums; in
particular the padding-box width is the content width plus left and right
padding, and the analogous width and height identities hold for the
border box and the margin box. -/
theorem dimensions_box_algebra (d : Dimensions) (r : Rect) (e : EdgeSizes) :
    d.padding_box = d.content.expanded_by d.padding ∧
    d.border_box = d.padding_box.expanded_by d.border ∧
    d.margin_box = d.border_box.expanded_by d.margin ∧
    r.expanded_by e = ⟨r.x - e.left, r.y - e.top,
      r.width + e.left + e.right, r.height + e.top + e.bottom⟩ ∧
    d.padding_box.width = d.content.width + d.padding.left + d.padding.right ∧
    d.padding_box.height = d.content.height + d.padding.top + d.padding.bottom ∧
    d.border_box.width = d.padding_box.width + d.border.left + d.border.right ∧
    d.border_box.height = d.padding_box.height + d.border.top + d.border.bottom ∧
    d.margin_box.width = d.border_box.width + d.margin.left + d.margin.right ∧
    d.margin_box.height = d.border_box.height + d.margin.top + d.margin.bottom := by
  refine ⟨rfl, rfl, rfl, rfl, ?_, ?_, ?_, ?_, ?_, ?_⟩ <;>
    simp [Dimensions.padding_box, Dimensions.border_box, Dimensions.margin_box,
      Rect.expanded_by]

/-! ### C1: simple-selector matching -/

/-- C1 (code bug): the source's class check in `matches_simple_selector`
is inverted.  On the element `<div class="y">` — whose class set does
contain "y" — the selector `.y` fails to match, while on a plain `<div>`
without classes the selector `.y` does match.  The claim (and spec §4.2)
requires the opposite on both inputs. -/
theorem matches_simple_selector_class_inverted :
    matches_simple_selector ⟨"div", [("class", "y")]⟩ ⟨none, none, ["y"]⟩ = false ∧
    (ElementData.classes ⟨"div", [("class", "y")]⟩).contains "y" = true ∧
    matches_simple_selector ⟨"div", []⟩ ⟨none, none, ["y"]⟩ = true ∧
    (ElementData.classes ⟨"div", []⟩).contains "y" = false := by
  decide

/-! ### C8: top-level root fabrication -/

/-- C8: whatever the top-level `parse_nodes` produced, `parse` returns the
single produced node as the document root when there is exactly one, and
otherwise wraps the collected nodes, in order, in a synthetic `html`
element with an empty attribute map. -/
theorem parse_root_fabrication (source : List Char) (ns : List Node)
    (rest : List Char)
    (h : parse_nodes (parse_fuel source) source = some (ns, rest)) :
    (∀ n, ns = [n] → parse source = some n) ∧
    (ns.length ≠ 1 → parse source = some (elem "html" [] ns)) := by
  unfold parse
  rw [h]
  constructor
  · rintro n rfl
    rfl
  · intro h1
    match ns with
    | [] => rfl
    | [n] => simp at h1
    | a :: b :: t => rfl

/-- Witness for C8 at a concrete input: two top-level elements get wrapped
in a synthetic `html` element. -/
theorem parse_root_fabrication_witness :
    parse "<a></a><b></b>".toList =
      some (elem "html" [] [elem "a" [] [], elem "b" [] []]) :=
  (parse_root_fabrication "<a></a><b></b>".toList
    [elem "a" [] [], elem "b" [] []] [] (by rfl)).2 (by decide)

/-! ### C5: rule matching picks the first matching selector -/

/-- C5: `match_rule` yields `none` exactly when no selector of the rule
matches the element, and yields `some m` exactly when the rule's selector
list splits as `pre ++ sel :: post` with nothing in `pre` matching, `sel`
matching, and `m` carrying the specificity of that first matching
selector `sel` (not of any later, possibly more specific, match). -/
theorem match_rule_first_match (e : ElementData) (r : Rule) :
    (match_rule e r = none ↔ ∀ sel ∈ r.selectors, «matches» e sel = false) ∧
    (∀ m : MatchedRule, match_rule e r = some m ↔
      ∃ sel pre post, r.selectors = pre ++ sel :: post ∧
        (∀ s' ∈ pre, «matches» e s' = false) ∧ «matches» e sel = true ∧
        m = (sel.specificity, r)) := by
  unfold match_rule
  constructor
  · simp [Option.map_eq_none', List.find?_eq_none]
  · intro m
    simp only [Option.map_eq_some']
    constructor
    · rintro ⟨sel, hfind, rfl⟩
      rw [List.find?_eq_some] at hfind
      obtain ⟨hsel, pre, post, heq, hpre⟩ := hfind
      exact ⟨sel, pre, post, heq, fun s' hs' => by simpa using hpre s' hs', hsel, rfl⟩
    · rintro ⟨sel, pre, post, heq, hpre, hsel, rfl⟩
      refine ⟨sel, ?_, rfl⟩
      rw [List.find?_eq_some]
      exact ⟨hsel, pre, post, heq, fun a ha => by simpa using hpre a ha⟩

/-- Witness for C5: on `<div id="x">`, a rule with selectors
`div, div#x` (in that order) is matched with the specificity `(0,0,1)` of
the first matching selector `div`, not the higher `(1,0,1)` of `div#x`. -/
theorem match_rule_first_match_witness :
    match_rule ⟨"div", [("id", "x")]⟩
      ⟨[.Simple ⟨some "div", none, []⟩, .Simple ⟨some "div", some "x", []⟩], []⟩ =
      some (((0 : ℕ), (0 : ℕ), (1 : ℕ)),
        ⟨[.Simple ⟨some "div", none, []⟩, .Simple ⟨some "div", some "x", []⟩], []⟩) := by
  refine ((match_rule_first_match _ _).2 _).mpr ?_
  refine ⟨.Simple ⟨some "div", none, []⟩, [], [.Simple ⟨some "div", some "x", []⟩],
    rfl, by simp, by decide, by decide⟩

/-! ### Helper lemmas about layout-tree construction -/

/-- `push_child` keeps the box type of the root. -/
theorem push_child_box_type (root b : LayoutBox) :
    (push_child root b).box_type = root.box_type := by
  match root with
  | .mk d bt cs => rfl

/-- `push_inline` keeps the box type of the root. -/
theorem push_inline_box_type (root b : LayoutBox) :
    (push_inline root b).box_type = root.box_type := by
  match root with
  | .mk d bt cs =>
    cases bt with
    | BlockNode s =>
      simp only [push_inline]
      cases h : cs.getLast? with
      | none => rfl
      | some last =>
        cases last with
        | mk ld lbt lcs =>
          by_cases ha : lbt.is_anonymous <;>
            simp [ha, LayoutBox.box_type]
    | InlineNode s => rfl
    | AnonymousBlock => rfl

/-- The child loop keeps the box type of the root it decorates. -/
theorem build_children_box_type : ∀ (cs : List StyledNode) (root r : LayoutBox),
    build_children cs root = some r → r.box_type = root.box_type := by
  intro cs
  induction cs with
  | nil =>
    intro root r h
    simp only [build_children, Option.some.injEq] at h
    rw [← h]
  | cons c rest ih =>
    intro root r h
    simp only [build_children] at h
    split at h
    · split at h
      · exact absurd h (by simp)
      · exact (ih _ _ h).trans (push_child_box_type _ _)
    · split at h
      · exact absurd h (by simp)
      · exact (ih _ _ h).trans (push_inline_box_type _ _)
    · exact ih _ _ h

/-- The child loop never fails: the recursive `build_layout_tree` calls it
makes are only on children whose display is Block or Inline. -/
theorem build_children_total : ∀ (N : ℕ) (cs : List StyledNode), sizeOf cs ≤ N →
    ∀ root, ∃ r, build_children cs root = some r := by
  intro N
  induction N with
  | zero =>
    intro cs h
    exfalso
    cases cs <;> simp_all
  | succ N ih =>
    intro cs hcs root
    match cs with
    | [] => exact ⟨root, rfl⟩
    | c :: rest =>
      have hsz : sizeOf rest ≤ N := by
        cases c with
        | mk cn csv ccs => simp_all; omega
      cases hd : c.display with
      | None =>
        obtain ⟨r, hr⟩ := ih rest hsz root
        exact ⟨r, by simp only [build_children, hd]; exact hr⟩
      | Block =>
        cases c with
        | mk cn csv ccs =>
          have hccs : sizeOf ccs ≤ N := by simp_all; omega
          obtain ⟨b, hb⟩ := ih ccs hccs (LayoutBox.new (.BlockNode (.mk cn csv ccs)))
          obtain ⟨r, hr⟩ := ih rest hsz (push_child root b)
          exact ⟨r, by simp only [build_children, hd, build_layout_tree, hb]; exact hr⟩
      | Inline =>
        cases c with
        | mk cn csv ccs =>
          have hccs : sizeOf ccs ≤ N := by simp_all; omega
          obtain ⟨b, hb⟩ := ih ccs hccs (LayoutBox.new (.InlineNode (.mk cn csv ccs)))
          obtain ⟨r, hr⟩ := ih rest hsz (push_inline root b)
          exact ⟨r, by simp only [build_children, hd, build_layout_tree, hb]; exact hr⟩

/-- A styled node whose display is not `none` always yields a layout box. -/
theorem build_layout_tree_total (c : StyledNode) (h : c.display ≠ .None) :
    ∃ b, build_layout_tree c = some b := by
  match c with
  | .mk n sv cs =>
    cases hd : (StyledNode.mk n sv cs).display with
    | None => exact absurd hd h
    | Block =>
      obtain ⟨r, hr⟩ := build_children_total (sizeOf cs) cs le_rfl
        (LayoutBox.new (.BlockNode (.mk n sv cs)))
      exact ⟨r, by rw [build_layout_tree, hd]; exact hr⟩
    | Inline =>
      obtain ⟨r, hr⟩ := build_children_total (sizeOf cs) cs le_rfl
        (LayoutBox.new (.InlineNode (.mk n sv cs)))
      exact ⟨r, by rw [build_layout_tree, hd]; exact hr⟩

/-! ### C9: root display decides construction failure -/

/-- C9: layout-tree construction fails exactly when the root styled node's
display is `none`; a Block (resp. Inline) root succeeds and produces a
`BlockNode` (resp. `InlineNode`) root box.  Totality of the child loop
(`build_children_total`) is what makes `display: none` descendants mere
skips rather than failures. -/
theorem build_root_display (s : StyledNode) :
    (build_layout_tree s = none ↔ s.display = .None) ∧
    (s.display = .Block →
      ∃ b, build_layout_tree s = some b ∧ b.box_type = .BlockNode s) ∧
    (s.display = .Inline →
      ∃ b, build_layout_tree s = some b ∧ b.box_type = .InlineNode s) := by
  match s with
  | .mk n sv cs =>
    refine ⟨?_, ?_, ?_⟩
    · constructor
      · intro h
        cases hd : (StyledNode.mk n sv cs).display with
        | None => rfl
        | Block =>
          obtain ⟨r, hr⟩ := build_children_total (sizeOf cs) cs le_rfl
            (LayoutBox.new (.BlockNode (.mk n sv cs)))
          rw [build_layout_tree, hd, hr] at h
          exact absurd h (by simp)
        | Inline =>
          obtain ⟨r, hr⟩ := build_children_total (sizeOf cs) cs le_rfl
            (LayoutBox.new (.InlineNode (.mk n sv cs)))
          rw [build_layout_tree, hd, hr] at h
          exact absurd h (by simp)
      · intro h
        rw [build_layout_tree, h]
    · intro h
      obtain ⟨r, hr⟩ := build_children_total (sizeOf cs) cs le_rfl
        (LayoutBox.new (.BlockNode (.mk n sv cs)))
      refine ⟨r, ?_, ?_⟩
      · rw [build_layout_tree, h]
        exact hr
      · exact build_children_box_type _ _ _ hr
    · intro h
      obtain ⟨r, hr⟩ := build_children_total (sizeOf cs) cs le_rfl
        (LayoutBox.new (.InlineNode (.mk n sv cs)))
      refine ⟨r, ?_, ?_⟩
      · rw [build_layout_tree, h]
        exact hr
      · exact build_children_box_type _ _ _ hr

/-- Witness for C9: a block root with a `display: none` child builds
successfully into a `BlockNode` root box. -/
theorem build_root_display_witness :
    (build_layout_tree
        (.mk (elem "a" [] []) [("display", .Keyword "block")]
          [.mk (elem "b" [] []) [("display", .Keyword "none")] []]) ≠ none) ∧
    ∃ b, build_layout_tree
        (.mk (elem "a" [] []) [("display", .Keyword "block")]
          [.mk (elem "b" [] []) [("display", .Keyword "none")] []]) = some b ∧
      b.box_type = .BlockNode
        (.mk (elem "a" [] []) [("display", .Keyword "block")]
          [.mk (elem "b" [] []) [("display", .Keyword "none")] []]) := by
  refine ⟨fun h => ?_, (build_root_display _).2.1 (by rfl)⟩
  exact absurd ((build_root_display _).1.mp h) (by decide)

/-! ### C6: consecutive inline children share one anonymous block -/

/-- An all-inline run of children keeps extending the trailing anonymous
block of a block parent: the first inline child creates it (fresh append),
every following one reuses it. -/
theorem build_children_inline_run :
    ∀ (cs : List StyledNode) (d da : Dimensions) (s : StyledNode)
      (pre : List LayoutBox) (acc : List LayoutBox),
      (∀ c ∈ cs, c.display = .Inline) →
      ∃ bs, List.Forall₂ (fun c b => build_layout_tree c = some b) cs bs ∧
        build_children cs
          (.mk d (.BlockNode s) (pre ++ [.mk da .AnonymousBlock acc])) =
          some (.mk d (.BlockNode s)
            (pre ++ [.mk da .AnonymousBlock (acc ++ bs)])) := by
  intro cs
  induction cs with
  | nil =>
    intro d da s pre acc _
    exact ⟨[], List.Forall₂.nil, by simp [build_children]⟩
  | cons c rest ih =>
    intro d da s pre acc hall
    have hc : c.display = .Inline := hall c (by simp)
    obtain ⟨b, hb⟩ := build_layout_tree_total c (by rw [hc]; simp)
    obtain ⟨bs, hf, hrest⟩ := ih d da s pre (acc ++ [b])
      (fun x hx => hall x (by simp [hx]))
    refine ⟨b :: bs, List.Forall₂.cons hb hf, ?_⟩
    rw [build_children]
    simp only [hc, hb]
    have hpush : push_inline (.mk d (.BlockNode s) (pre ++ [.mk da .AnonymousBlock acc])) b =
        .mk d (.BlockNode s) (pre ++ [.mk da .AnonymousBlock (acc ++ [b])]) := by
      simp [push_inline, List.getLast?_concat, BoxType.is_anonymous,
        LayoutBox.box_type, List.dropLast_concat, LayoutBox.dimensions,
        LayoutBox.children]
    rw [hpush, hrest]
    simp [List.append_assoc]

/-- C6: a block styled node all of whose (at least one) children are
inline builds into a root box with exactly one child, an `AnonymousBlock`
holding the boxes built from the inline children, in order. -/
theorem inline_children_single_anonymous_block (s : StyledNode)
    (h1 : s.display = .Block) (h2 : s.children ≠ [])
    (h3 : ∀ c ∈ s.children, c.display = .Inline) :
    ∃ bs, List.Forall₂ (fun c b => build_layout_tree c = some b) s.children bs ∧
      build_layout_tree s =
        some (.mk Dimensions.default (.BlockNode s)
          [.mk Dimensions.default .AnonymousBlock bs]) := by
  match s with
  | .mk n sv cs =>
    match cs, h2 with
    | c :: rest, _ =>
      have hc : c.display = .Inline := h3 c (by simp [StyledNode.children])
      obtain ⟨b, hb⟩ := build_layout_tree_total c (by rw [hc]; simp)
      obtain ⟨bs, hf, hrest⟩ := build_children_inline_run rest
        Dimensions.default Dimensions.default (.mk n sv (c :: rest)) [] [b]
        (fun x hx => h3 x (by simp [StyledNode.children, hx]))
      refine ⟨b :: bs, List.Forall₂.cons hb hf, ?_⟩
      rw [build_layout_tree, h1]
      rw [build_children]
      simp only [hc, hb]
      have hpush : push_inline (LayoutBox.new (.BlockNode (.mk n sv (c :: rest)))) b =
          .mk Dimensions.default (.BlockNode (.mk n sv (c :: rest)))
            [.mk Dimensions.default .AnonymousBlock [b]] := by
        simp [push_inline, LayoutBox.new, push_child, LayoutBox.dimensions,
          LayoutBox.box_type, LayoutBox.children]
      rw [hpush]
      simp only [List.nil_append] at hrest
      rw [hrest]
      simp

/-- Witness for C6 at the claim's concrete instance: `<a>` (block) with
inline children `i`, `j`, `k` builds into one `AnonymousBlock` child
carrying the three inline boxes in order. -/
theorem inline_children_single_anonymous_block_witness :
    ∃ bs, List.Forall₂ (fun c b => build_layout_tree c = some b)
        [StyledNode.mk (elem "i" [] []) [] [], .mk (elem "j" [] []) [] [],
          .mk (elem "k" [] []) [] []] bs ∧
      build_layout_tree
        (.mk (elem "a" [] []) [("display", .Keyword "block")]
          [.mk (elem "i" [] []) [] [], .mk (elem "j" [] []) [] [],
            .mk (elem "k" [] []) [] []]) =
        some (.mk Dimensions.default
          (.BlockNode (.mk (elem "a" [] []) [("display", .Keyword "block")]
            [.mk (elem "i" [] []) [] [], .mk (elem "j" [] []) [] [],
              .mk (elem "k" [] []) [] []]))
          [.mk Dimensions.default .AnonymousBlock bs]) := by
  refine inline_children_single_anonymous_block
    (.mk (elem "a" [] []) [("display", .Keyword "block")]
      [.mk (elem "i" [] []) [] [], .mk (elem "j" [] []) [] [],
        .mk (elem "k" [] []) [] []]) (by rfl) (by simp [StyledNode.children]) ?_
  intro c hc
  simp only [StyledNode.children, List.mem_cons, List.not_mem_nil, or_false] at hc
  rcases hc with rfl | rfl | rfl <;> rfl

/-! ### Helper lemmas for block heights -/

/-- Left folds of addition over `ℚ` shift their initial accumulator out. -/
theorem foldl_add_shift (l : List ℚ) : ∀ a : ℚ,
    l.foldl (· + ·) a = a + l.foldl (· + ·) 0 := by
  induction l with
  | nil => intro a; simp
  | cons x t ih =>
    intro a
    simp only [List.foldl_cons]
    rw [ih (a + x), ih (0 + x)]
    ring

/-- `sum` unfolds over a cons cell. -/
theorem sum_cons (x : ℚ) (l : List ℚ) : sum (x :: l) = x + sum l := by
  simp only [sum, List.foldl_cons]
  rw [foldl_add_shift l (0 + x)]
  simp [sum]

/-- Phase 1 never touches the content height. -/
theorem calculate_block_width_height (s : StyledNode) (d cb : Dimensions) :
    (calculate_block_width s d cb).content.height = d.content.height := by
  simp [calculate_block_width]

/-- Phase 2 never touches the content height. -/
theorem calculate_block_position_height (s : StyledNode) (d cb : Dimensions) :
    (calculate_block_position s d cb).content.height = d.content.height := by
  simp [calculate_block_position]

/-- Phase 3 grows the content height by exactly the margin-box heights of
the laid-out children. -/
theorem layout_block_children_height :
    ∀ (cs : List LayoutBox) (d : Dimensions),
      (layout_block_children cs d).1.content.height =
        d.content.height +
          sum ((layout_block_children cs d).2.map
            (fun c => c.dimensions.margin_box.height)) := by
  intro cs
  induction cs with
  | nil =>
    intro d
    simp [layout_block_children, sum]
  | cons c rest ih =>
    intro d
    rw [layout_block_children]
    simp only [List.map_cons]
    rw [sum_cons]
    rw [ih]
    simp
    ring

/-! ### C3: block content height versus children -/

/-- C3 (amended): after laying out a block box that started with content
height 0, the content height EQUALS the sum of the laid-out children's
margin-box heights when the styled node has no explicit `height`
property, and an explicit `Length(h, Px)` height overwrites the
accumulated value with `h` — which, as the counterexample shows, can lie
below the children sum, so the claimed inequality does not hold in
general. -/
theorem block_height_children_sum (s : StyledNode) (d : Dimensions)
    (cs : List LayoutBox) (cb : Dimensions)
    (h0 : d.content.height = 0) :
    ((∀ h : ℚ, s.value "height" ≠ some (.Length h .Px)) →
      (layout (.mk d (.BlockNode s) cs) cb).dimensions.content.height =
        sum ((layout (.mk d (.BlockNode s) cs) cb).children.map
          (fun c => c.dimensions.margin_box.height))) ∧
    (∀ h : ℚ, s.value "height" = some (.Length h .Px) →
      (layout (.mk d (.BlockNode s) cs) cb).dimensions.content.height = h) := by
  rw [layout]
  constructor
  · intro hno
    cases hv : s.value "height" with
    | none =>
      simp only [calculate_block_height, hv, LayoutBox.dimensions, LayoutBox.children]
      rw [layout_block_children_height]
      rw [calculate_block_position_height, calculate_block_width_height, h0]
      rw [zero_add]
      rfl
    | some v =>
      cases v with
      | Keyword kw =>
        simp only [calculate_block_height, hv, LayoutBox.dimensions, LayoutBox.children]
        rw [layout_block_children_height]
        rw [calculate_block_position_height, calculate_block_width_height, h0]
        rw [zero_add]
        rfl
      | Length q u =>
        cases u
        exact absurd hv (hno q)
      | ColorValue r g b a =>
        simp only [calculate_block_height, hv, LayoutBox.dimensions, LayoutBox.children]
        rw [layout_block_children_height]
        rw [calculate_block_position_height, calculate_block_width_height, h0]
        rw [zero_add]
        rfl
  · intro h hv
    simp [calculate_block_height, hv, LayoutBox.dimensions]

/-- Witness for C3: a childless block with `height: 30px` lays out with
content height 30. -/
theorem block_height_children_sum_witness :
    (layout (.mk Dimensions.default
        (.BlockNode (.mk (elem "a" [] [])
          [("display", .Keyword "block"), ("height", .Length 30 .Px)] []))
        []) (viewport 100)).dimensions.content.height = 30 :=
  (block_height_children_sum _ Dimensions.default [] (viewport 100) rfl).2 30 rfl

/-- Phase 1 on `fh_child` in the 100-wide viewport: width auto expands to
fill, everything else 0. -/
theorem fh_child_width :
    calculate_block_width fh_child Dimensions.default (viewport 100) = viewport 100 := by
  have h1 : StyledNode.value fh_child "width" = none := by rfl
  have h2 : StyledNode.lookup fh_child "margin-left" "margin" (.Length 0 .Px) = .Length 0 .Px := by rfl
  have h3 : StyledNode.lookup fh_child "margin-right" "margin" (.Length 0 .Px) = .Length 0 .Px := by rfl
  have h4 : StyledNode.lookup fh_child "border-left-width" "border-width" (.Length 0 .Px) = .Length 0 .Px := by rfl
  have h5 : StyledNode.lookup fh_child "border-right-width" "border-width" (.Length 0 .Px) = .Length 0 .Px := by rfl
  have h6 : StyledNode.lookup fh_child "padding-left" "padding" (.Length 0 .Px) = .Length 0 .Px := by rfl
  have h7 : StyledNode.lookup fh_child "padding-right" "padding" (.Length 0 .Px) = .Length 0 .Px := by rfl
  rw [calculate_block_width, h1, h2, h3, h4, h5, h6, h7]
  norm_num [sum, Value.to_px, viewport, Dimensions.default, Rect.default,
    EdgeSizes.default]

/-- Phase 2 on `fh_child`: no offsets. -/
theorem fh_child_position :
    calculate_block_position fh_child (viewport 100) (viewport 100) = viewport 100 := by
  have h1 : StyledNode.lookup fh_child "margin-top" "margin" (.Length 0 .Px) = .Length 0 .Px := by rfl
  have h2 : StyledNode.lookup fh_child "margin-bottom" "margin" (.Length 0 .Px) = .Length 0 .Px := by rfl
  have h3 : StyledNode.lookup fh_child "border-top-width" "border-width" (.Length 0 .Px) = .Length 0 .Px := by rfl
  have h4 : StyledNode.lookup fh_child "border-bottom-width" "border-width" (.Length 0 .Px) = .Length 0 .Px := by rfl
  have h5 : StyledNode.lookup fh_child "padding-top" "padding" (.Length 0 .Px) = .Length 0 .Px := by rfl
  have h6 : StyledNode.lookup fh_child "padding-bottom" "padding" (.Length 0 .Px) = .Length 0 .Px := by rfl
  rw [calculate_block_position, h1, h2, h3, h4, h5, h6]
  norm_num [Value.to_px, viewport, Dimensions.default, Rect.default,
    EdgeSizes.default]

/-- The laid-out `fh_child` box: content height 30. -/
theorem fh_child_layout :
    layout (.mk Dimensions.default (.BlockNode fh_child) []) (viewport 100) =
      .mk { viewport 100 with content.height := 30 } (.BlockNode fh_child) [] := by
  have hcv : StyledNode.value fh_child "height" = some (.Length 30 .Px) := by rfl
  simp only [layout]
  rw [fh_child_width, fh_child_position]
  simp only [layout_block_children]
  simp [calculate_block_height, hcv]

/-- Phase 1 on `fh_parent`. -/
theorem fh_parent_width :
    calculate_block_width fh_parent Dimensions.default (viewport 100) = viewport 100 := by
  have h1 : StyledNode.value fh_parent "width" = none := by rfl
  have h2 : StyledNode.lookup fh_parent "margin-left" "margin" (.Length 0 .Px) = .Length 0 .Px := by rfl
  have h3 : StyledNode.lookup fh_parent "margin-right" "margin" (.Length 0 .Px) = .Length 0 .Px := by rfl
  have h4 : StyledNode.lookup fh_parent "border-left-width" "border-width" (.Length 0 .Px) = .Length 0 .Px := by rfl
  have h5 : StyledNode.lookup fh_parent "border-right-width" "border-width" (.Length 0 .Px) = .Length 0 .Px := by rfl
  have h6 : StyledNode.lookup fh_parent "padding-left" "padding" (.Length 0 .Px) = .Length 0 .Px := by rfl
  have h7 : StyledNode.lookup fh_parent "padding-right" "padding" (.Length 0 .Px) = .Length 0 .Px := by rfl
  rw [calculate_block_width, h1, h2, h3, h4, h5, h6, h7]
  norm_num [sum, Value.to_px, viewport, Dimensions.default, Rect.default,
    EdgeSizes.default]

/-- Phase 2 on `fh_parent`. -/
theorem fh_parent_position :
    calculate_block_position fh_parent (viewport 100) (viewport 100) = viewport 100 := by
  have h1 : StyledNode.lookup fh_parent "margin-top" "margin" (.Length 0 .Px) = .Length 0 .Px := by rfl
  have h2 : StyledNode.lookup fh_parent "margin-bottom" "margin" (.Length 0 .Px) = .Length 0 .Px := by rfl
  have h3 : StyledNode.lookup fh_parent "border-top-width" "border-width" (.Length 0 .Px) = .Length 0 .Px := by rfl
  have h4 : StyledNode.lookup fh_parent "border-bottom-width" "border-width" (.Length 0 .Px) = .Length 0 .Px := by rfl
  have h5 : StyledNode.lookup fh_parent "padding-top" "padding" (.Length 0 .Px) = .Length 0 .Px := by rfl
  have h6 : StyledNode.lookup fh_parent "padding-bottom" "padding" (.Length 0 .Px) = .Length 0 .Px := by rfl
  rw [calculate_block_position, h1, h2, h3, h4, h5, h6]
  norm_num [Value.to_px, viewport, Dimensions.default, Rect.default,
    EdgeSizes.default]

/-- The laid-out `fh_parent` box: the children accumulate height 30, then
the explicit `height: 10px` overwrites it. -/
theorem fh_parent_layout :
    layout (.mk Dimensions.default (.BlockNode fh_parent)
        [.mk Dimensions.default (.BlockNode fh_child) []]) (viewport 100) =
      .mk { viewport 100 with content.height := 10 } (.BlockNode fh_parent)
        [.mk { viewport 100 with content.height := 30 } (.BlockNode fh_child) []] := by
  have hpv : StyledNode.value fh_parent "height" = some (.Length 10 .Px) := by rfl
  have hmb : ({ viewport 100 with content.height := 30 } : Dimensions).margin_box.height = 30 := by
    norm_num [Dimensions.margin_box, Dimensions.border_box, Dimensions.padding_box,
      Rect.expanded_by, viewport, Dimensions.default, Rect.default, EdgeSizes.default]
  simp only [layout]
  rw [fh_parent_width, fh_parent_position]
  simp only [layout_block_children]
  rw [fh_child_layout]
  simp only [LayoutBox.dimensions]
  rw [hmb]
  simp [calculate_block_height, hpv]

/-- The layout tree under `fh_parent`: one block child. -/
theorem fh_build :
    build_layout_tree fh_parent =
      some (.mk Dimensions.default (.BlockNode fh_parent)
        [.mk Dimensions.default (.BlockNode fh_child) []]) := by
  have hdc : fh_child.display = .Block := by rfl
  rw [show fh_parent = StyledNode.mk (elem "a" [] [])
    [("display", .Keyword "block"), ("height", .Length 10 .Px)] [fh_child] from rfl]
  rw [build_layout_tree]
  simp only [show (StyledNode.mk (elem "a" [] [])
    [("display", .Keyword "block"), ("height", .Length 10 .Px)] [fh_child]).display
      = .Block from rfl]
  rw [build_children]
  simp only [hdc]
  rw [show build_layout_tree fh_child =
    some (.mk Dimensions.default (.BlockNode fh_child) []) from ?_]
  · simp [build_children, push_child, LayoutBox.new]
  · rw [show fh_child = StyledNode.mk (elem "b" [] [])
      [("display", .Keyword "block"), ("height", .Length 30 .Px)] [] from rfl]
    rw [build_layout_tree]
    simp only [show (StyledNode.mk (elem "b" [] [])
      [("display", .Keyword "block"), ("height", .Length 30 .Px)] []).display
        = .Block from rfl]
    simp [build_children, LayoutBox.new]

/-- C3 counterexample: for the styled tree `fh_parent` (block, explicit
`height: 10px`, one block child of `height: 30px`) laid out in a 100-wide
viewport, the root's content height is 10 while the children's margin-box
heights sum to 30, so the claimed inequality
`content.height ≥ Σ margin-box heights` fails. -/
theorem block_height_overwrite_below_sum :
    ∃ b, build_layout_tree fh_parent = some b ∧
      (layout b (viewport 100)).dimensions.content.height = 10 ∧
      sum ((layout b (viewport 100)).children.map
        (fun c => c.dimensions.margin_box.height)) = 30 ∧
      ¬((layout b (viewport 100)).dimensions.content.height ≥
        sum ((layout b (viewport 100)).children.map
          (fun c => c.dimensions.margin_box.height))) := by
  refine ⟨_, fh_build, ?_, ?_, ?_⟩ <;>
    rw [fh_parent_layout] <;>
    norm_num [LayoutBox.dimensions, LayoutBox.children, sum,
      Dimensions.margin_box, Dimensions.border_box, Dimensions.padding_box,
      Rect.expanded_by, viewport, Dimensions.default, Rect.default,
      EdgeSizes.default]

/-! ### C2: scenario S2, the overconstrained case -/

/-- The cascade on scenario S2's element: one matched rule, four
properties. -/
theorem s2_specified :
    specified_values ⟨"a", []⟩ s2_sheet =
      [("display", .Keyword "block"), ("width", .Length 120 .Px),
       ("margin-left", .Length 10 .Px), ("margin-right", .Length 10 .Px)] := by
  have hm : matching_rules ⟨"a", []⟩ s2_sheet =
      [(((0 : ℕ), (0 : ℕ), (1 : ℕ)), s2_rule)] := by rfl
  rw [specified_values]
  rw [hm, List.mergeSort_singleton]
  rfl

/-- Styling `<a></a>` with scenario S2's stylesheet. -/
theorem s2_style_tree :
    style_tree (elem "a" [] []) s2_sheet = s2_styled := by
  rw [style_tree.eq_def]
  simp only [elem]
  rw [s2_specified]
  simp [s2_styled, elem]

/-- The S2 layout tree: a single block box. -/
theorem s2_build :
    build_layout_tree s2_styled =
      some (.mk Dimensions.default (.BlockNode s2_styled) []) := by
  rw [show s2_styled = StyledNode.mk (elem "a" [] [])
    [("display", .Keyword "block"), ("width", .Length 120 .Px),
     ("margin-left", .Length 10 .Px), ("margin-right", .Length 10 .Px)] [] from rfl]
  rw [build_layout_tree]
  simp only [show (StyledNode.mk (elem "a" [] [])
    [("display", .Keyword "block"), ("width", .Length 120 .Px),
     ("margin-left", .Length 10 .Px), ("margin-right", .Length 10 .Px)] []).display
      = .Block from rfl]
  simp [build_children, LayoutBox.new]

/-- Phase 1 on S2: width 120, margins 10 and 10, total 140 against a
100-wide containing block; the overconstrained `(false,false,false)` arm
adds the underflow −40 to the right margin, giving −30. -/
theorem s2_width_phase :
    calculate_block_width s2_styled Dimensions.default (viewport 100) =
      { Dimensions.default with
        content.width := 120, margin.left := 10, margin.right := -30 } := by
  have h1 : StyledNode.value s2_styled "width" = some (.Length 120 .Px) := by rfl
  have h2 : StyledNode.lookup s2_styled "margin-left" "margin" (.Length 0 .Px) = .Length 10 .Px := by rfl
  have h3 : StyledNode.lookup s2_styled "margin-right" "margin" (.Length 0 .Px) = .Length 10 .Px := by rfl
  have h4 : StyledNode.lookup s2_styled "border-left-width" "border-width" (.Length 0 .Px) = .Length 0 .Px := by rfl
  have h5 : StyledNode.lookup s2_styled "border-right-width" "border-width" (.Length 0 .Px) = .Length 0 .Px := by rfl
  have h6 : StyledNode.lookup s2_styled "padding-left" "padding" (.Length 0 .Px) = .Length 0 .Px := by rfl
  have h7 : StyledNode.lookup s2_styled "padding-right" "padding" (.Length 0 .Px) = .Length 0 .Px := by rfl
  rw [calculate_block_width, h1, h2, h3, h4, h5, h6, h7]
  norm_num [sum, Value.to_px, viewport, Dimensions.default, Rect.default,
    EdgeSizes.default]
  simp +decide
  norm_num

/-- Phase 2 on S2: only `content.x` moves, by the left margin. -/
theorem s2_position_phase :
    calculate_block_position s2_styled
      { Dimensions.default with
        content.width := 120, margin.left := 10, margin.right := -30 }
      (viewport 100) =
      { Dimensions.default with
        content.width := 120, margin.left := 10, margin.right := -30,
        content.x := 10 } := by
  have h1 : StyledNode.lookup s2_styled "margin-top" "margin" (.Length 0 .Px) = .Length 0 .Px := by rfl
  have h2 : StyledNode.lookup s2_styled "margin-bottom" "margin" (.Length 0 .Px) = .Length 0 .Px := by rfl
  have h3 : StyledNode.lookup s2_styled "border-top-width" "border-width" (.Length 0 .Px) = .Length 0 .Px := by rfl
  have h4 : StyledNode.lookup s2_styled "border-bottom-width" "border-width" (.Length 0 .Px) = .Length 0 .Px := by rfl
  have h5 : StyledNode.lookup s2_styled "padding-top" "padding" (.Length 0 .Px) = .Length 0 .Px := by rfl
  have h6 : StyledNode.lookup s2_styled "padding-bottom" "padding" (.Length 0 .Px) = .Length 0 .Px := by rfl
  rw [calculate_block_position, h1, h2, h3, h4, h5, h6]
  norm_num [Value.to_px, viewport, Dimensions.default, Rect.default,
    EdgeSizes.default]

/-- The laid-out S2 root box. -/
theorem s2_layout :
    layout (.mk Dimensions.default (.BlockNode s2_styled) []) (viewport 100) =
      .mk { Dimensions.default with
        content.width := 120, margin.left := 10, margin.right := -30,
        content.x := 10 } (.BlockNode s2_styled) [] := by
  have hv : StyledNode.value s2_styled "height" = none := by rfl
  simp only [layout]
  rw [s2_width_phase, s2_position_phase]
  simp only [layout_block_children]
  simp [calculate_block_height, hv]

/-- C2 counterexample: in scenario S2 (viewport 100, `<a></a>`,
`a { display: block; width: 120px; margin-left: 10px; margin-right: 10px }`)
the laid-out root box's `margin.right` is NOT the claimed −20: the
overconstrained arm computes `10 + (100 − 140) = −30`. -/
theorem s2_margin_right_not_minus_twenty :
    ∃ doc b, parse "<a></a>".toList = some doc ∧
      build_layout_tree (style_tree doc s2_sheet) = some b ∧
      (layout b (viewport 100)).dimensions.margin.right ≠ -20 := by
  refine ⟨elem "a" [] [], .mk Dimensions.default (.BlockNode s2_styled) [],
    by rfl, ?_, ?_⟩
  · rw [s2_style_tree, s2_build]
  · rw [s2_layout]
    norm_num [LayoutBox.dimensions, Dimensions.default, Rect.default,
      EdgeSizes.default]

/-- C2 (amended): scenario S2 lays out with content width 120 and right
margin −30 (the right margin absorbs the whole −40 underflow on top of its
specified 10). -/
theorem s2_overconstrained_margin :
    ∃ doc b, parse "<a></a>".toList = some doc ∧
      build_layout_tree (style_tree doc s2_sheet) = some b ∧
      (layout b (viewport 100)).dimensions.content.width = 120 ∧
      (layout b (viewport 100)).dimensions.margin.right = -30 := by
  refine ⟨elem "a" [] [], .mk Dimensions.default (.BlockNode s2_styled) [],
    by rfl, ?_, ?_, ?_⟩
  · rw [s2_style_tree, s2_build]
  · rw [s2_layout]
    rfl
  · rw [s2_layout]
    rfl

/-! ### C10: text nodes produced by the parser -/

/-- After `consume_whitespace`, a remaining head character is never
whitespace. -/
theorem head_consume_whitespace (s : List Char) :
    ∀ c, (consume_whitespace s).head? = some c → c.isWhitespace = false := by
  induction s with
  | nil => intro c h; simp [consume_whitespace] at h
  | cons x t ih =>
    intro c h
    by_cases hx : x.isWhitespace
    · exact ih c (by simpa [consume_whitespace, List.dropWhile_cons, hx] using h)
    · simp [consume_whitespace, List.dropWhile_cons, hx] at h
      subst h
      simpa using hx

/-- `text_ok` for an element node follows from `text_ok` of its
children. -/
theorem text_ok_elem (cs : List Node) (e : ElementData)
    (h : ∀ n ∈ cs, text_ok n = true) :
    text_ok (.mk cs (.Element e)) = true := by
  rw [text_ok]
  simp only [Bool.and_eq_true, List.all_eq_true]
  exact ⟨trivial, fun x _ => h x.1 x.2⟩

/-- Mutual fuel induction: every node list produced by `parse_nodes`,
every node produced by `parse_node` on a non-empty input with a
non-whitespace head, and every node produced by `parse_element`,
satisfies `text_ok`. -/
theorem parser_text_ok : ∀ f : ℕ,
    (∀ s ns r, parse_nodes f s = some (ns, r) → ∀ n ∈ ns, text_ok n = true) ∧
    (∀ s n r, s ≠ [] → (∀ c, s.head? = some c → c.isWhitespace = false) →
      parse_node f s = some (n, r) → text_ok n = true) ∧
    (∀ s n r, parse_element f s = some (n, r) → text_ok n = true) := by
  intro f
  induction f with
  | zero =>
    refine ⟨?_, ?_, ?_⟩
    · intro s ns r h; exact absurd h (by simp [parse_nodes])
    · intro s n r _ _ h; exact absurd h (by simp [parse_node])
    · intro s n r h; exact absurd h (by simp [parse_element])
  | succ f ih =>
    obtain ⟨ihn, iho, ihe⟩ := ih
    refine ⟨?_, ?_, ?_⟩
    · -- parse_nodes
      intro s ns r h
      rw [parse_nodes] at h
      by_cases hstop : consume_whitespace s = [] ∨
          ['<', '/'].isPrefixOf (consume_whitespace s)
      · rw [if_pos hstop] at h
        injection h with h
        injection h with h1 h2
        subst h1
        intro n hn
        simp at hn
      · rw [if_neg hstop] at h
        push_neg at hstop
        split at h
        · exact absurd h (by simp)
        · rename_i v1 s2 h1
          split at h
          · exact absurd h (by simp)
          · rename_i ns2 s3 h2
            injection h with h
            injection h with ha hb
            subst ha
            intro n hn
            cases hn with
            | head =>
              exact iho (consume_whitespace s) v1 s2 hstop.1
                (head_consume_whitespace s) h1
            | tail _ hmem => exact ihn s2 ns2 s3 h2 n hmem
    · -- parse_node
      intro s n r hne hws h
      rw [parse_node] at h
      by_cases hlt : ['<'].isPrefixOf s
      · rw [if_pos hlt] at h
        exact ihe s n r h
      · rw [if_neg hlt] at h
        injection h with h
        match s, hne with
        | c :: t, _ =>
          have hc : c.isWhitespace = false := hws c rfl
          have hlt' : c ≠ '<' := by
            intro hcq
            exact hlt (by simp [List.isPrefixOf, hcq])
          injection h with ha hb
          rw [← ha]
          simp only [parse_text, consume_while]
          rw [List.takeWhile_cons]
          simp only [hlt', decide_eq_true_eq, if_pos, decide_not]
          rw [text_ok.eq_def]
          simp [text, hc, hlt']
    · -- parse_element
      intro s n r h
      rw [parse_element] at h
      split at h
      · exact absurd h (by simp)
      · rename_i s1 e1
        simp only at h
        split at h
        · exact absurd h (by simp)
        · rename_i attrs s2 e2
          split at h
          · exact absurd h (by simp)
          · rename_i s3 e3
            split at h
            · exact absurd h (by simp)
            · rename_i children s4 e4
              split at h
              · exact absurd h (by simp)
              · rename_i s5 e5
                split at h
                · exact absurd h (by simp)
                · rename_i s6 e6
                  split at h
                  · exact absurd h (by simp)
                  · rename_i s7 e7
                    injection h with h
                    injection h with ha hb
                    rw [← ha]
                    exact text_ok_elem _ _ (ihn s3 children s4 e4)


/-- C10: every Text node in a tree returned by `parse` has non-empty data
whose first character is neither whitespace nor the opening angle
bracket: `parse_nodes` consumes whitespace before dispatching, so pure
whitespace runs between elements never become Text nodes, and the leading
whitespace of a text run is dropped. -/
theorem parse_text_invariant (source : List Char) (t : Node)
    (h : parse source = some t) : text_ok t = true := by
  rw [parse] at h
  split at h
  · exact absurd h (by simp)
  · rename_i ns rest hns
    have hall : ∀ n ∈ ns, text_ok n = true :=
      (parser_text_ok (parse_fuel source)).1 source ns rest hns
    split at h
    · rename_i n1
      injection h with h
      rw [← h]
      exact hall n1 (by simp)
    · injection h with h
      rw [← h]
      exact text_ok_elem _ _ hall

/-- Witness for C10: parsing `  <a> hi</a>` yields an `a` element with the
single Text child "hi" (whitespace dropped), which satisfies the
invariant. -/
theorem parse_text_invariant_witness :
    text_ok (elem "a" [] [text "hi"]) = true :=
  parse_text_invariant "  <a> hi</a>".toList (elem "a" [] [text "hi"]) (by rfl)

/-! ### C4: the cascade -/

/-- Lookup after the in-place replacement arm of `pm_insert`. -/
theorem pm_find_map_replace (m : PropertyMap) (k : String) (v : Value) (p : String) :
    pm_find (m.map (fun q => if q.1 = k then (k, v) else q)) p =
      if p = k then (if m.any (fun q => q.1 = k) then some v else none)
      else pm_find m p := by
  induction m with
  | nil => by_cases hp : p = k <;> simp [pm_find, hp]
  | cons q t ih =>
    simp only [List.map_cons, List.any_cons]
    by_cases hq : q.1 = k
    · by_cases hp : p = k
      · subst hp
        simp [pm_find, List.find?_cons, hq]
      · rw [if_pos hq]
        rw [show pm_find (((k : String), v) :: t.map (fun q => if q.1 = k then (k, v) else q)) p
            = pm_find (t.map (fun q => if q.1 = k then (k, v) else q)) p by
          unfold pm_find
          rw [List.find?_cons_of_neg]
          simp
          exact fun h => hp h.symm]
        rw [ih]
        rw [if_neg hp, if_neg hp]
        unfold pm_find
        rw [List.find?_cons_of_neg]
        simp
        exact fun h => hp (hq.symm.trans h).symm
    · rw [if_neg hq]
      by_cases hqp : q.1 = p
      · have hp : ¬(p = k) := fun h => hq (h ▸ hqp)
        rw [if_neg hp]
        unfold pm_find
        rw [List.find?_cons_of_pos, List.find?_cons_of_pos] <;> simp [hqp]
      · rw [show pm_find (q :: t.map (fun q => if q.1 = k then (k, v) else q)) p
            = pm_find (t.map (fun q => if q.1 = k then (k, v) else q)) p by
          unfold pm_find
          rw [List.find?_cons_of_neg]
          simp [hqp]]
        rw [ih]
        by_cases hp : p = k
        · have hd : (decide (q.1 = k)) = false := by simp [hq]
          subst hp
          rw [if_pos rfl, if_pos rfl]
          simp only [hd, Bool.false_or]
        · rw [if_neg hp, if_neg hp]
          unfold pm_find
          rw [List.find?_cons_of_neg]
          simp [hqp]

/-- Lookup after the append arm of `pm_insert`. -/
theorem pm_find_append_single (m : PropertyMap) (k : String) (v : Value) (p : String) :
    pm_find (m ++ [(k, v)]) p =
      (pm_find m p).or (if p = k then some v else none) := by
  unfold pm_find
  rw [List.find?_append]
  by_cases hp : p = k
  · subst hp
    cases h : m.find? (fun q => q.1 = p) <;> simp [List.find?_cons, h]
  · have hd : (decide ((k : String) = p)) = false := by
      simp
      exact fun h => hp h.symm
    cases h : m.find? (fun q => q.1 = p) <;>
      simp [List.find?_cons, h, hd, hp]

/-- Lookup after an insert: the inserted key now maps to the new value,
every other key is untouched. -/
theorem pm_find_insert (m : PropertyMap) (k : String) (v : Value) (p : String) :
    pm_find (pm_insert m k v) p = if p = k then some v else pm_find m p := by
  unfold pm_insert
  by_cases hmem : m.any (fun q => q.1 = k)
  · rw [if_pos hmem, pm_find_map_replace, if_pos hmem]
  · rw [if_neg hmem, pm_find_append_single]
    by_cases hp : p = k
    · subst hp
      rw [if_pos rfl, if_pos rfl]
      have h2 : List.find? (fun q => decide (q.1 = p)) m = none := by
        rw [List.find?_eq_none]
        intro x hx hxp
        apply hmem
        rw [List.any_eq_true]
        exact ⟨x, hx, by simpa using hxp⟩
      unfold pm_find
      rw [h2]
      rfl
    · rw [if_neg hp, if_neg hp]
      cases h : pm_find m p <;> rfl


/-- Applying one rule leaves, for each property, the value of the rule's
last declaration of it, and otherwise the previous binding. -/
theorem pm_find_apply_rule (mr : MatchedRule) (m : PropertyMap) (p : String) :
    pm_find (apply_rule m mr) p = (mr.2.last_decl p).or (pm_find m p) := by
  unfold apply_rule Rule.last_decl
  generalize mr.2.declarations = ds
  induction ds generalizing m with
  | nil => simp
  | cons d t ih =>
    simp only [List.foldl_cons, List.reverse_cons, List.find?_append]
    rw [ih]
    by_cases hd : d.name = p
    · cases hfind : t.reverse.find? (fun d => d.name = p) with
      | none =>
        simp [hfind, List.find?_cons, hd, pm_find_insert]
      | some d2 =>
        simp [hfind]
    · cases hfind : t.reverse.find? (fun d => d.name = p) with
      | none =>
        have hd' : (decide (d.name = p)) = false := by simp [hd]
        simp [hfind, List.find?_cons, hd', pm_find_insert, Ne.symm]
        intro h
        exact absurd h.symm hd
      | some d2 =>
        simp [hfind]

/-- Rules that do not declare a property never change it. -/
theorem pm_find_no_declare (L : List MatchedRule) (m : PropertyMap) (p : String)
    (h : ∀ x ∈ L, x.2.declares p = false) :
    pm_find (L.foldl apply_rule m) p = pm_find m p := by
  induction L generalizing m with
  | nil => rfl
  | cons mr t ih =>
    simp only [List.foldl_cons]
    rw [ih _ (fun x hx => h x (by simp [hx]))]
    rw [pm_find_apply_rule]
    have hmr : mr.2.declares p = false := h mr (by simp)
    have hnone : mr.2.last_decl p = none := by
      unfold Rule.last_decl
      have h2 : mr.2.declarations.reverse.find? (fun d => d.name = p) = none := by
        rw [List.find?_eq_none]
        intro d hd
        unfold Rule.declares at hmr
        have := List.any_eq_false.mp hmr d (List.mem_reverse.mp hd)
        simpa using this
      rw [h2]
      rfl
    rw [hnone]
    rfl


/-- The sort comparator of the cascade is transitive. -/
theorem rule_le_trans : ∀ a b c : MatchedRule,
    rule_le a b → rule_le b c → rule_le a c := by
  intro a b c
  simp only [rule_le, spec_le, decide_eq_true_eq]
  omega

/-- The sort comparator of the cascade is total. -/
theorem rule_le_total : ∀ a b : MatchedRule, rule_le a b || rule_le b a := by
  intro a b
  simp only [rule_le, spec_le, Bool.or_eq_true, decide_eq_true_eq]
  omega

/-- C4: the cascade sorts the matched rules by specificity ascending with
a stable sort (`List.mergeSort` over the position-enumerated list models
Rust's stable `sort_by`) and then applies each rule's declarations in
order, overwriting.  Hence for a property `p`, if matched rule number `i`
(in stylesheet source order) declares `p` and every other matched rule
declaring `p` either has strictly lower specificity or equal specificity
and an earlier source position, then the cascade's value for `p` is that
rule's last declared value: highest specificity wins, and among equal
specificities the later rule in source order wins. -/
theorem cascade_highest_specificity_wins (e : ElementData) (sheet : Stylesheet)
    (p : String) (i : ℕ) (sp : Specificity) (r : Rule) (v : Value)
    (hi : (matching_rules e sheet)[i]? = some (sp, r))
    (hv : r.last_decl p = some v)
    (hdom : ∀ j sp' r', (matching_rules e sheet)[j]? = some (sp', r') →
      j ≠ i → r'.declares p = true →
      (spec_lt sp' sp = true ∨ (sp' = sp ∧ j < i))) :
    pm_find (specified_values e sheet) p = some v := by
  have hsorted : (((matching_rules e sheet).enum.mergeSort
      (List.enumLE rule_le))).Pairwise (fun a b => List.enumLE rule_le a b = true) :=
    List.sorted_mergeSort (List.enumLE_trans rule_le_trans)
      (List.enumLE_total rule_le_total) (matching_rules e sheet).enum
  have hperm : ((matching_rules e sheet).enum.mergeSort
      (List.enumLE rule_le)).Perm (matching_rules e sheet).enum :=
    List.mergeSort_perm (matching_rules e sheet).enum _
  have hmem : (i, (sp, r)) ∈ (matching_rules e sheet).enum.mergeSort
      (List.enumLE rule_le) :=
    hperm.mem_iff.mpr (List.mk_mem_enum_iff_getElem?.mpr hi)
  obtain ⟨A, B, hAB⟩ := List.append_of_mem hmem
  have hnodup : (((matching_rules e sheet).enum.mergeSort
      (List.enumLE rule_le)).map Prod.fst).Nodup := by
    have hp2 : (((matching_rules e sheet).enum.mergeSort
        (List.enumLE rule_le)).map Prod.fst).Perm
        ((matching_rules e sheet).enum.map Prod.fst) := hperm.map _
    rw [List.enum_map_fst] at hp2
    exact hp2.nodup_iff.mpr (List.nodup_range _)
  have hB : ∀ y ∈ B, y.2.2.declares p = false := by
    rintro ⟨j, sp', r'⟩ hy
    by_contra hdecl
    rw [Bool.not_eq_false] at hdecl
    have hyS : (j, (sp', r')) ∈ (matching_rules e sheet).enum.mergeSort
        (List.enumLE rule_le) := by
      rw [hAB]
      exact List.mem_append_right _ (List.mem_cons_of_mem _ hy)
    have hyM : (matching_rules e sheet)[j]? = some (sp', r') :=
      List.mk_mem_enum_iff_getElem?.mp (hperm.mem_iff.mp hyS)
    have hji : j ≠ i := by
      intro hji
      subst hji
      rw [hAB, List.map_append, List.map_cons] at hnodup
      have h1 := (List.nodup_append.mp hnodup).2.1
      have h2 := (List.nodup_cons.mp h1).1
      exact h2 (List.mem_map.mpr ⟨(j, (sp', r')), hy, rfl⟩)
    have hR : List.enumLE rule_le (i, (sp, r)) (j, (sp', r')) = true := by
      rw [hAB] at hsorted
      have h1 := (List.pairwise_append.mp hsorted).2.1
      exact (List.pairwise_cons.mp h1).1 _ hy
    simp only [List.enumLE, rule_le] at hR
    rcases hdom j sp' r' hyM hji hdecl with hlt | ⟨hsp, hj⟩
    · simp only [spec_lt, Bool.and_eq_true, Bool.not_eq_true'] at hlt
      rw [if_neg (by rw [hlt.2]; exact fun h => Bool.false_ne_true h)] at hR
      exact Bool.false_ne_true hR
    · subst hsp
      have hrefl : spec_le sp' sp' = true := by simp [spec_le]
      rw [if_pos hrefl, if_pos hrefl] at hR
      simp only [decide_eq_true_eq] at hR
      omega
  have hml : (matching_rules e sheet).mergeSort rule_le =
      A.map (·.2) ++ (sp, r) :: B.map (·.2) := by
    rw [← @List.mergeSort_enum _ rule_le (matching_rules e sheet), hAB]
    rw [List.map_append, List.map_cons]
  simp only [specified_values]
  rw [hml, List.foldl_append, List.foldl_cons]
  rw [pm_find_no_declare _ _ _ (by
    intro x hx
    obtain ⟨y, hy, rfl⟩ := List.mem_map.mp hx
    exact hB y hy)]
  rw [pm_find_apply_rule]
  rw [hv]
  rfl


/-- Witness for C4: on `<div id="x">` with rules
`div {color red}; div {color green}; #x {color blue}` the id rule (highest
specificity, matched position 2) wins with blue; the hypotheses are
discharged by enumerating the three matched positions. -/
theorem cascade_highest_specificity_wins_witness :
    pm_find (specified_values ⟨"div", [("id", "x")]⟩
      ⟨[⟨[.Simple ⟨some "div", none, []⟩], [⟨"color", .Keyword "red"⟩]⟩,
        ⟨[.Simple ⟨some "div", none, []⟩], [⟨"color", .Keyword "green"⟩]⟩,
        ⟨[.Simple ⟨none, some "x", []⟩], [⟨"color", .Keyword "blue"⟩]⟩]⟩)
      "color" = some (.Keyword "blue") := by
  refine cascade_highest_specificity_wins _ _ "color" 2 ((1 : ℕ), (0 : ℕ), (0 : ℕ))
    ⟨[.Simple ⟨none, some "x", []⟩], [⟨"color", .Keyword "blue"⟩]⟩
    (.Keyword "blue") (by rfl) (by rfl) ?_
  intro j sp' r' hj hne hdecl
  match j with
  | 0 =>
    simp only [matching_rules, List.getElem?_cons_zero] at hj
    rw [show (⟨[⟨[.Simple ⟨some "div", none, []⟩], [⟨"color", .Keyword "red"⟩]⟩,
        ⟨[.Simple ⟨some "div", none, []⟩], [⟨"color", .Keyword "green"⟩]⟩,
        ⟨[.Simple ⟨none, some "x", []⟩], [⟨"color", .Keyword "blue"⟩]⟩]⟩ :
        Stylesheet).rules.filterMap
        (match_rule ⟨"div", [("id", "x")]⟩) =
      [(((0 : ℕ), (0 : ℕ), (1 : ℕ)),
          ⟨[.Simple ⟨some "div", none, []⟩], [⟨"color", .Keyword "red"⟩]⟩),
       (((0 : ℕ), (0 : ℕ), (1 : ℕ)),
          ⟨[.Simple ⟨some "div", none, []⟩], [⟨"color", .Keyword "green"⟩]⟩),
       (((1 : ℕ), (0 : ℕ), (0 : ℕ)),
          ⟨[.Simple ⟨none, some "x", []⟩], [⟨"color", .Keyword "blue"⟩]⟩)] from rfl] at hj
    simp only [List.getElem?_cons_zero, Option.some.injEq, Prod.mk.injEq] at hj
    obtain ⟨rfl, rfl⟩ := hj
    left
    decide
  | 1 =>
    simp only [matching_rules] at hj
    rw [show (⟨[⟨[.Simple ⟨some "div", none, []⟩], [⟨"color", .Keyword "red"⟩]⟩,
        ⟨[.Simple ⟨some "div", none, []⟩], [⟨"color", .Keyword "green"⟩]⟩,
        ⟨[.Simple ⟨none, some "x", []⟩], [⟨"color", .Keyword "blue"⟩]⟩]⟩ :
        Stylesheet).rules.filterMap
        (match_rule ⟨"div", [("id", "x")]⟩) =
      [(((0 : ℕ), (0 : ℕ), (1 : ℕ)),
          ⟨[.Simple ⟨some "div", none, []⟩], [⟨"color", .Keyword "red"⟩]⟩),
       (((0 : ℕ), (0 : ℕ), (1 : ℕ)),
          ⟨[.Simple ⟨some "div", none, []⟩], [⟨"color", .Keyword "green"⟩]⟩),
       (((1 : ℕ), (0 : ℕ), (0 : ℕ)),
          ⟨[.Simple ⟨none, some "x", []⟩], [⟨"color", .Keyword "blue"⟩]⟩)] from rfl] at hj
    simp only [List.getElem?_cons_succ, List.getElem?_cons_zero,
      Option.some.injEq, Prod.mk.injEq] at hj
    obtain ⟨rfl, rfl⟩ := hj
    left
    decide
  | 2 => exact absurd rfl hne
  | j + 3 =>
    exfalso
    simp only [matching_rules] at hj
    rw [show (⟨[⟨[.Simple ⟨some "div", none, []⟩], [⟨"color", .Keyword "red"⟩]⟩,
        ⟨[.Simple ⟨some "div", none, []⟩], [⟨"color", .Keyword "green"⟩]⟩,
        ⟨[.Simple ⟨none, some "x", []⟩], [⟨"color", .Keyword "blue"⟩]⟩]⟩ :
        Stylesheet).rules.filterMap
        (match_rule ⟨"div", [("id", "x")]⟩) =
      [(((0 : ℕ), (0 : ℕ), (1 : ℕ)),
          ⟨[.Simple ⟨some "div", none, []⟩], [⟨"color", .Keyword "red"⟩]⟩),
       (((0 : ℕ), (0 : ℕ), (1 : ℕ)),
          ⟨[.Simple ⟨some "div", none, []⟩], [⟨"color", .Keyword "green"⟩]⟩),
       (((1 : ℕ), (0 : ℕ), (0 : ℕ)),
          ⟨[.Simple ⟨none, some "x", []⟩], [⟨"color", .Keyword "blue"⟩]⟩)] from rfl] at hj
    simp at hj

end Robinson
